import Mathlib

/-!
# NeuroMetric-Live: calibration tracker and fusion status engine

Shallow embedding of the two stateful cores of the repository:

* `CalibrationSystem` (source file `src/unnamed/part_000`): the calibration
  progress state machine with its `start` / `processFrame` / `complete` /
  `stop` operations, the phased stimulus selector `updateStimuli`, and the
  stimulus pool lookup.
* The fusion status logic of `updateDashboard`
  (source file `src/app/static/js/dashboard.js`): per-modality liveness and
  the five-way fusion verdict.

JS numbers are modelled as `ℚ`: every value the calibration loop produces is
a multiple of `1/2` in a small range, where IEEE doubles are exact, and the
fusion path only compares numbers to `0`.  DOM side effects are modelled in
two ways: the visibility of the calibration guide (a CSS class toggled by
`classList.add/remove('d-none')`, hence idempotent) is part of the state,
while one-shot emissions (toast notices, stimulus/status UI updates, the
completion confirm-dialog with its backend POST) are collected in an
`Effect` list returned by each operation.
-/

namespace NeuroMetric

/-- One-shot observable emissions of the calibration tracker.
`toast` is the Toastify notice shown by `start` when no subject is selected;
`stimuli p` is a call of `updateStimuli p` (possible asset swap plus phase
label UI update); `status p` is a direct `updateUI` call with the paused
message; `completeDialog` is the HITL confirm dialog together with the
POST to `/api/calibrate-done` and its follow-up toast, all emitted by
`complete`. -/
inductive Effect where
  | toast
  | stimuli (percent : ℚ)
  | status (percent : ℚ)
  | completeDialog
deriving DecidableEq

/-- The mutable state of `CalibrationSystem`: the `isActive` flag, the
`progress` counter, and whether the calibration guide element is currently
visible (i.e. does not carry the `d-none` class). -/
structure CalibState where
  isActive : Bool
  progress : ℚ
  guideVisible : Bool
deriving DecidableEq

/-- `CalibrationSystem.targetPoints = 150`. -/
def targetPoints : ℚ := 150

/-- ASCII lowercasing, `String.toLower` expressed directly on the character
list (`String.toLower` is `String.map Char.toLower`); this form evaluates
by kernel reduction. -/
def strLower (s : String) : String := ⟨s.data.map Char.toLower⟩

/-- The hold classification of `processFrame`:
`faceEmotion && faceEmotion.toLowerCase() === "neutral" && faceConf > 0.5`.
The truthiness test on the string is modelled by `faceEmotion != ""`
(the empty string is the only falsy string). -/
def isHold (faceEmotion : String) (faceConf : ℚ) : Bool :=
  faceEmotion != "" && strLower faceEmotion == "neutral" && decide ((1 : ℚ)/2 < faceConf)

/-- `CalibrationSystem.start`, with the environment supplied as arguments:
`subjectStandby` is whether the `display-id` element reads `"STANDBY"`, and
`imgPresent` is whether the `calib-image-display` element exists (it gates
the `updateStimuli(0)` emission inside `start`). -/
def startFn (subjectStandby : Bool) (imgPresent : Bool) (s : CalibState) :
    CalibState × List Effect :=
  if s.isActive then (s, [])
  else if subjectStandby then (s, [.toast])
  else ({ isActive := true, progress := 0, guideVisible := true },
        (if imgPresent then [Effect.stimuli 0] else []) ++ [Effect.status 0])

/-- `CalibrationSystem.processFrame(faceEmotion, faceConf)`; `imgPresent` is
whether the `calib-image-display` element exists.  The hold branch
increments `progress` by 1, emits `updateStimuli(percent)` and invokes
`complete()` when `progress >= targetPoints`; the non-hold branch drains
`progress` by `0.5` when it is positive and emits the paused status with
`Math.max(0, percent)`. -/
def processFrame (imgPresent : Bool) (faceEmotion : String) (faceConf : ℚ)
    (s : CalibState) : CalibState × List Effect :=
  if !s.isActive then (s, [])
  else if !imgPresent then (s, [])
  else if isHold faceEmotion faceConf then
    let p := s.progress + 1
    let percent := p / targetPoints * 100
    if targetPoints ≤ p then
      ({ isActive := false, progress := p, guideVisible := false },
       [Effect.stimuli percent, Effect.completeDialog])
    else
      ({ isActive := true, progress := p, guideVisible := s.guideVisible },
       [Effect.stimuli percent])
  else
    let p := if 0 < s.progress then s.progress - 1/2 else s.progress
    let percent := max 0 (p / targetPoints * 100)
    ({ isActive := s.isActive, progress := p, guideVisible := s.guideVisible },
     [Effect.status percent])

/-- `CalibrationSystem.complete`: clears `isActive`, hides the guide, and
unconditionally emits the HITL confirm dialog with its backend dispatch.
It does not touch `progress` and it does not check `isActive`. -/
def complete (s : CalibState) : CalibState × List Effect :=
  ({ isActive := false, progress := s.progress, guideVisible := false },
   [Effect.completeDialog])

/-- `CalibrationSystem.stop`: clears `isActive` and hides the guide
(`classList.add('d-none')`, captured by `guideVisible := false`); its only
other action is DOM-idempotent, so it emits nothing.  It does not touch
`progress`. -/
def stop (s : CalibState) : CalibState × List Effect :=
  ({ isActive := false, progress := s.progress, guideVisible := false }, [])

/-- External events driving the tracker: the user-facing `start` and `stop`
calls and the per-frame classifier callback.  (`complete` is internal: in
the source it is invoked only by `processFrame`.) -/
inductive Event where
  | start (subjectStandby : Bool) (imgPresent : Bool)
  | frame (imgPresent : Bool) (faceEmotion : String) (faceConf : ℚ)
  | stop
deriving DecidableEq

/-- One event step of the tracker. -/
def step (s : CalibState) (e : Event) : CalibState × List Effect :=
  match e with
  | .start standby img => startFn standby img s
  | .frame img em c => processFrame img em c s
  | .stop => stop s

/-- Run a sequence of events, collecting all emitted effects in order. -/
def runE (s : CalibState) : List Event → CalibState × List Effect
  | [] => (s, [])
  | e :: l =>
    let se := step s e
    let rest := runE se.1 l
    (rest.1, se.2 ++ rest.2)

/-- The page-load state: session inactive, progress 0, guide hidden
(the guide carries `d-none` until `start` removes it). -/
def init : CalibState :=
  { isActive := false, progress := 0, guideVisible := false }

/-- States reachable from the page-load state under the external events. -/
inductive Reachable : CalibState → Prop where
  | init : Reachable init
  | step (e : Event) {s : CalibState} : Reachable s → Reachable (step s e).1

/-- Is an event a `processFrame` call? -/
def isFrameEvent : Event → Bool
  | .frame _ _ _ => true
  | _ => false

/-- A frame event that `processFrame` would classify as a hold (image
element present and `isHold` true). -/
def isHoldEvent : Event → Bool
  | .frame img em c => img && isHold em c
  | _ => false

/-- A frame event that `processFrame` would classify as a non-hold, with
the image element present so that the frame is actually processed. -/
def isNonHoldEvent : Event → Bool
  | .frame img em c => img && !isHold em c
  | _ => false

/-- The three stimulus phases of `updateStimuli`. -/
inductive Phase where
  | focus
  | neutral
  | relax
deriving DecidableEq

/-- The phase selection of `updateStimuli(percent)`: `focus` by default,
`neutral` when `percent >= 33 && percent < 66`, `relax` when
`percent >= 66`. -/
def selectPhase (percent : ℚ) : Phase :=
  if 33 ≤ percent ∧ percent < 66 then .neutral
  else if 66 ≤ percent then .relax
  else .focus

/-- The asset proposal of `updateStimuli`: when the pool for the phase is
non-empty and the current `src` is not already a pool member, pick
`pool[Math.floor(Math.random() * pool.length)]`; otherwise keep the current
asset.  The random draw is modelled by an arbitrary natural `k` indexed as
`k % pool.length`, which ranges over exactly the indices
`Math.floor(Math.random() * pool.length)` can produce. -/
def proposeAsset (pool : List String) (current : String) (k : ℕ) : String :=
  if 0 < pool.length then
    if pool.contains current then current
    else pool.getD (k % pool.length) current
  else current

/-! ## Fusion status engine (`dashboard.js`, `updateDashboard`) -/

/-- The latest `/api/live` payload, restricted to the fields the fusion
logic reads.  `eegRaw` is `data.eeg.raw_sample[0]` (`none` when
`raw_sample` is absent); `eegEmotion` is `data.eeg.emotion`;
`faceEmotion` is `data.face.emotion` (`none` when `data.face` or the
emotion string is absent/falsy). -/
structure LiveData where
  eegRaw : Option ℚ
  eegEmotion : String
  faceEmotion : Option String

/-- `const eegActive = data.eeg.raw_sample && data.eeg.raw_sample[0] !== 0`. -/
def eegActive (d : LiveData) : Bool :=
  match d.eegRaw with
  | some v => decide (v ≠ 0)
  | none => false

/-- `const faceActive = data.face && data.face.emotion && data.face.emotion !== "None"`. -/
def faceActive (d : LiveData) : Bool :=
  match d.faceEmotion with
  | some s => s != "None"
  | none => false

/-- Modelled from the spec: the backend value `data.fusion.match` is not in
the repository sources; per the spec it is true iff the two modality labels
match case-insensitively. -/
def fusionMatch (d : LiveData) : Bool :=
  strLower d.eegEmotion == strLower (d.faceEmotion.getD "")

/-- The five fusion verdicts shown by the dashboard badge / waiting panel. -/
inductive Verdict where
  | waiting
  | faceOnly
  | signalOnly
  | bothAgree
  | bothDissent
deriving DecidableEq

/-- The badge/panel decision of `updateDashboard`: the waiting panel when
neither modality is live; otherwise agree/dissent by `data.fusion.match`
when both are live, `CAMERA ONLY MODE` when only the face is live, and
`EEG ONLY MODE` otherwise. -/
def fusionVerdict (d : LiveData) : Verdict :=
  if eegActive d || faceActive d then
    if eegActive d && faceActive d then
      if fusionMatch d then .bothAgree else .bothDissent
    else if faceActive d then .faceOnly
    else .signalOnly
  else .waiting

/-! ## Basic evaluation lemmas -/

/-- Hold classification unfolded into its two spec-level conditions. -/
lemma isHold_iff (em : String) (c : ℚ) :
    isHold em c = true ↔ (strLower em = "neutral" ∧ (1 : ℚ)/2 < c) := by
  constructor
  · intro h
    simp only [isHold, Bool.and_eq_true, bne_iff_ne, beq_iff_eq, decide_eq_true_eq] at h
    exact ⟨h.1.2, h.2⟩
  · rintro ⟨h1, h2⟩
    have hne : em ≠ "" := by
      intro he
      rw [he] at h1
      exact absurd h1 (by decide)
    simp only [isHold, Bool.and_eq_true, bne_iff_ne, beq_iff_eq, decide_eq_true_eq]
    exact ⟨⟨hne, h1⟩, h2⟩

lemma isHold_neutral (c : ℚ) : isHold "neutral" c = decide ((1 : ℚ)/2 < c) := rfl

lemma isHold_happy (c : ℚ) : isHold "happy" c = false := rfl

/-- `processFrame` is a strict no-op while the session is inactive. -/
lemma processFrame_inactive (img : Bool) (em : String) (c : ℚ) (s : CalibState)
    (h : s.isActive = false) : processFrame img em c s = (s, []) := by
  simp [processFrame, h]

/-- `processFrame` is a strict no-op when the image element is absent. -/
lemma processFrame_noImage (em : String) (c : ℚ) (s : CalibState) :
    processFrame false em c s = (s, []) := by
  cases h : s.isActive <;> simp [processFrame, h]

/-- A hold frame from an active state strictly below the completion
threshold: progress goes up by 1, the session stays active. -/
lemma processFrame_hold (em : String) (c : ℚ) (s : CalibState)
    (ha : s.isActive = true) (hh : isHold em c = true)
    (hlt : s.progress + 1 < targetPoints) :
    processFrame true em c s =
      (⟨true, s.progress + 1, s.guideVisible⟩,
       [Effect.stimuli ((s.progress + 1) / targetPoints * 100)]) := by
  simp only [processFrame, ha, Bool.not_true, Bool.false_eq_true, if_false,
    Bool.not_false, if_true, hh, if_pos]
  rw [if_neg (by exact not_le.mpr hlt)]

/-- A hold frame from an active state that reaches the threshold: progress
goes up by 1, `complete()` fires. -/
lemma processFrame_hold_complete (em : String) (c : ℚ) (s : CalibState)
    (ha : s.isActive = true) (hh : isHold em c = true)
    (hge : targetPoints ≤ s.progress + 1) :
    processFrame true em c s =
      (⟨false, s.progress + 1, false⟩,
       [Effect.stimuli ((s.progress + 1) / targetPoints * 100), Effect.completeDialog]) := by
  simp only [processFrame, ha, Bool.not_true, Bool.false_eq_true, if_false,
    Bool.not_false, if_true, hh, if_pos]
  rw [if_pos hge]

/-- A non-hold frame from an active state with positive progress: progress
drains by `0.5`. -/
lemma processFrame_nonhold (em : String) (c : ℚ) (s : CalibState)
    (ha : s.isActive = true) (hh : isHold em c = false) (hp : 0 < s.progress) :
    processFrame true em c s =
      (⟨true, s.progress - 1/2, s.guideVisible⟩,
       [Effect.status (max 0 ((s.progress - 1/2) / targetPoints * 100))]) := by
  simp only [processFrame, ha, Bool.not_true, Bool.false_eq_true, if_false,
    Bool.not_false, if_true, hh]
  rw [if_pos hp]

/-- A non-hold frame from an active state with progress already at (or
below) zero leaves progress unchanged. -/
lemma processFrame_nonhold_zero (em : String) (c : ℚ) (s : CalibState)
    (ha : s.isActive = true) (hh : isHold em c = false) (hp : ¬ 0 < s.progress) :
    processFrame true em c s =
      (⟨true, s.progress, s.guideVisible⟩,
       [Effect.status (max 0 (s.progress / targetPoints * 100))]) := by
  simp only [processFrame, ha, Bool.not_true, Bool.false_eq_true, if_false,
    Bool.not_false, if_true, hh]
  rw [if_neg hp]

/-! ## Runs -/

lemma runE_append (s : CalibState) (l₁ l₂ : List Event) :
    runE s (l₁ ++ l₂) =
      ((runE (runE s l₁).1 l₂).1, (runE s l₁).2 ++ (runE (runE s l₁).1 l₂).2) := by
  induction l₁ generalizing s with
  | nil => simp [runE]
  | cons e l ih => simp [runE, ih (step s e).1, List.append_assoc]

lemma runE_state_append (s : CalibState) (l₁ l₂ : List Event) :
    (runE s (l₁ ++ l₂)).1 = (runE (runE s l₁).1 l₂).1 := by
  rw [runE_append]

/-- Frame events are no-ops (state and effects) while inactive. -/
lemma runE_frames_inactive (s : CalibState) (l : List Event)
    (h : s.isActive = false) (hl : l.all isFrameEvent = true) :
    runE s l = (s, []) := by
  induction l with
  | nil => rfl
  | cons e l ih =>
    rw [List.all_cons, Bool.and_eq_true] at hl
    have hstep : step s e = (s, []) := by
      cases e with
      | start standby img => exact absurd hl.1 (by simp [isFrameEvent])
      | frame img em c => exact processFrame_inactive img em c s h
      | stop => exact absurd hl.1 (by simp [isFrameEvent])
    simp [runE, hstep, ih hl.2]

lemma reachable_runE (s : CalibState) (l : List Event) (h : Reachable s) :
    Reachable (runE s l).1 := by
  induction l generalizing s with
  | nil => exact h
  | cons e l ih => exact ih (step s e).1 (Reachable.step e h)

/-! ## The reachability invariant -/

/-- Invariant of the tracker state: `progress` is a half-integer between
`0` and `301/2`, strictly below `targetPoints` while the session is active,
and the guide is hidden whenever the session is inactive. -/
def GoodState (s : CalibState) : Prop :=
  (∃ n : ℕ, s.progress = (n : ℚ) / 2 ∧ n ≤ 301 ∧ (s.isActive = true → n < 300)) ∧
  (s.isActive = false → s.guideVisible = false)

lemma goodState_init : GoodState init :=
  ⟨⟨0, by norm_num [init], by norm_num, fun _ => by norm_num⟩, fun _ => rfl⟩

lemma goodState_step (e : Event) (s : CalibState) (h : GoodState s) :
    GoodState (step s e).1 := by
  obtain ⟨⟨n, hn, hn301, hnact⟩, hguide⟩ := h
  cases e with
  | start standby img =>
    simp only [step, startFn]
    split_ifs with h1 h2 h3
    · exact ⟨⟨n, hn, hn301, hnact⟩, hguide⟩
    · exact ⟨⟨n, hn, hn301, hnact⟩, hguide⟩
    · exact ⟨⟨0, by norm_num, by norm_num, fun _ => by norm_num⟩, by simp⟩
    · exact ⟨⟨0, by norm_num, by norm_num, fun _ => by norm_num⟩, by simp⟩
  | stop =>
    exact ⟨⟨n, hn, hn301, fun hc => absurd hc (by simp [step, stop])⟩, fun _ => rfl⟩
  | frame img em c =>
    by_cases ha : s.isActive = true
    case neg =>
      rw [Bool.not_eq_true] at ha
      rw [show (step s (.frame img em c)).1 = s from by
        rw [step, processFrame_inactive img em c s ha]]
      exact ⟨⟨n, hn, hn301, hnact⟩, hguide⟩
    case pos =>
      have hn300 : n < 300 := hnact ha
      cases img with
      | false =>
        rw [show (step s (.frame false em c)).1 = s from by
          rw [step, processFrame_noImage]]
        exact ⟨⟨n, hn, hn301, hnact⟩, hguide⟩
      | true =>
        by_cases hh : isHold em c = true
        case pos =>
          by_cases hge : targetPoints ≤ s.progress + 1
          case pos =>
            rw [step, processFrame_hold_complete em c s ha hh hge]
            refine ⟨⟨n + 2, ?_, by omega, fun hc => by simp at hc⟩, fun _ => rfl⟩
            push_cast
            rw [hn]
            ring
          case neg =>
            rw [step, processFrame_hold em c s ha hh (not_le.mp hge)]
            have hq : (n : ℚ)/2 + 1 < 150 := by
              have hx := not_le.mp hge
              rw [hn] at hx
              simpa [targetPoints] using hx
            have hn298 : (n : ℚ) < 298 := by linarith
            have hn298' : n < 298 := by exact_mod_cast hn298
            refine ⟨⟨n + 2, ?_, by omega, fun _ => by omega⟩, fun hc => by simp at hc⟩
            push_cast
            rw [hn]
            ring
        case neg =>
          rw [Bool.not_eq_true] at hh
          by_cases hp : 0 < s.progress
          case pos =>
            rw [step, processFrame_nonhold em c s ha hh hp]
            have hn1 : 1 ≤ n := by
              by_contra hc
              push_neg at hc
              interval_cases n
              rw [hn] at hp
              norm_num at hp
            refine ⟨⟨n - 1, ?_, by omega, fun _ => by omega⟩, fun hc => by simp at hc⟩
            rw [hn]
            have : ((n - 1 : ℕ) : ℚ) = (n : ℚ) - 1 := by
              push_cast [hn1]
              ring
            rw [this]
            ring
          case neg =>
            rw [step, processFrame_nonhold_zero em c s ha hh hp]
            exact ⟨⟨n, hn, hn301, fun _ => hn300⟩, fun hc => by simp at hc⟩

lemma reachable_goodState {s : CalibState} (h : Reachable s) : GoodState s := by
  induction h with
  | init => exact goodState_init
  | step e hr ih => exact goodState_step e _ ih

/-! ## Hold and non-hold runs -/

lemma runE_cons (s : CalibState) (e : Event) (l : List Event) :
    (runE s (e :: l)).1 = (runE (step s e).1 l).1 := rfl

lemma runE_cons_eff (s : CalibState) (e : Event) (l : List Event) :
    (runE s (e :: l)).2 = (step s e).2 ++ (runE (step s e).1 l).2 := rfl

lemma isFrame_of_isHoldEvent {e : Event} (h : isHoldEvent e = true) :
    isFrameEvent e = true := by
  cases e <;> simp_all [isHoldEvent, isFrameEvent]

lemma isFrame_of_isNonHoldEvent {e : Event} (h : isNonHoldEvent e = true) :
    isFrameEvent e = true := by
  cases e <;> simp_all [isNonHoldEvent, isFrameEvent]

lemma all_imp {p q : Event → Bool} (hpq : ∀ e, p e = true → q e = true)
    (l : List Event) (hl : l.all p = true) : l.all q = true := by
  induction l with
  | nil => rfl
  | cons e l ih =>
    rw [List.all_cons, Bool.and_eq_true] at hl ⊢
    exact ⟨hpq e hl.1, ih hl.2⟩

/-- A run of hold frames never decreases progress. -/
lemma runE_holds_ge (l : List Event) (s : CalibState)
    (hl : l.all isHoldEvent = true) : s.progress ≤ (runE s l).1.progress := by
  induction l generalizing s with
  | nil => exact le_refl _
  | cons e l ih =>
    rw [List.all_cons, Bool.and_eq_true] at hl
    obtain ⟨h1, hrest⟩ := hl
    cases e with
    | start standby img => exact absurd h1 (by simp [isHoldEvent])
    | stop => exact absurd h1 (by simp [isHoldEvent])
    | frame img em c =>
      simp only [isHoldEvent, Bool.and_eq_true] at h1
      obtain ⟨himg, hh⟩ := h1
      subst himg
      rw [runE_cons]
      by_cases hact : s.isActive = true
      · by_cases hge : targetPoints ≤ s.progress + 1
        · rw [step, processFrame_hold_complete em c s hact hh hge]
          have h2 := ih ⟨false, s.progress + 1, false⟩ hrest
          dsimp only at h2
          linarith
        · rw [step, processFrame_hold em c s hact hh (not_le.mp hge)]
          have h2 := ih ⟨true, s.progress + 1, s.guideVisible⟩ hrest
          dsimp only at h2
          linarith
      · rw [Bool.not_eq_true] at hact
        rw [step, processFrame_inactive true em c s hact]
        exact ih s hrest

/-- A run of hold frames that ends in an active state started active and
processed every frame: progress went up by exactly the number of frames. -/
lemma runE_holds_active (l : List Event) (s : CalibState)
    (hl : l.all isHoldEvent = true) (ha : (runE s l).1.isActive = true) :
    s.isActive = true ∧ (runE s l).1.progress = s.progress + l.length := by
  induction l generalizing s with
  | nil => exact ⟨ha, by simp [runE]⟩
  | cons e l ih =>
    rw [List.all_cons, Bool.and_eq_true] at hl
    obtain ⟨h1, hrest⟩ := hl
    cases e with
    | start standby img => exact absurd h1 (by simp [isHoldEvent])
    | stop => exact absurd h1 (by simp [isHoldEvent])
    | frame img em c =>
      simp only [isHoldEvent, Bool.and_eq_true] at h1
      obtain ⟨himg, hh⟩ := h1
      subst himg
      rw [runE_cons] at ha ⊢
      by_cases hact : s.isActive = true
      · by_cases hge : targetPoints ≤ s.progress + 1
        · rw [step, processFrame_hold_complete em c s hact hh hge] at ha
          rw [runE_frames_inactive _ l rfl
            (all_imp (fun e => isFrame_of_isHoldEvent) l hrest)] at ha
          exact absurd ha (by simp)
        · rw [step, processFrame_hold em c s hact hh (not_le.mp hge)] at ha ⊢
          obtain ⟨-, hp⟩ := ih ⟨true, s.progress + 1, s.guideVisible⟩ hrest ha
          refine ⟨hact, ?_⟩
          rw [hp]
          dsimp only
          push_cast [List.length_cons]
          ring
      · rw [Bool.not_eq_true] at hact
        rw [step, processFrame_inactive true em c s hact] at ha
        rw [runE_frames_inactive s l hact
          (all_imp (fun e => isFrame_of_isHoldEvent) l hrest)] at ha
        exact absurd ha (by rw [hact]; simp)

/-- A run of non-hold frames drains progress by at most `0.5` per frame,
and never flips the active flag. -/
lemma runE_nonholds_ge (l : List Event) (s : CalibState)
    (hl : l.all isNonHoldEvent = true) :
    s.progress - (l.length : ℚ) / 2 ≤ (runE s l).1.progress := by
  induction l generalizing s with
  | nil => simp [runE]
  | cons e l ih =>
    rw [List.all_cons, Bool.and_eq_true] at hl
    obtain ⟨h1, hrest⟩ := hl
    cases e with
    | start standby img => exact absurd h1 (by simp [isNonHoldEvent])
    | stop => exact absurd h1 (by simp [isNonHoldEvent])
    | frame img em c =>
      simp only [isNonHoldEvent, Bool.and_eq_true, Bool.not_eq_eq_eq_not,
        Bool.not_true] at h1
      obtain ⟨himg, hh⟩ := h1
      subst himg
      rw [runE_cons]
      by_cases hact : s.isActive = true
      · by_cases hp : 0 < s.progress
        · rw [step, processFrame_nonhold em c s hact hh hp]
          have h2 := ih ⟨true, s.progress - 1/2, s.guideVisible⟩ hrest
          dsimp only at h2
          push_cast [List.length_cons] at h2 ⊢
          linarith
        · rw [step, processFrame_nonhold_zero em c s hact hh hp]
          have h2 := ih ⟨true, s.progress, s.guideVisible⟩ hrest
          dsimp only at h2
          push_cast [List.length_cons] at h2 ⊢
          linarith
      · rw [Bool.not_eq_true] at hact
        rw [step, processFrame_inactive true em c s hact]
        have h2 := ih s hrest
        push_cast [List.length_cons] at h2 ⊢
        linarith

/-! ## Concrete traces -/

/-- A hold frame: neutral face at full confidence, image element present. -/
def holdEv : Event := .frame true "neutral" 1

/-- A non-hold frame: happy face, image element present. -/
def nonholdEv : Event := .frame true "happy" 1

lemma isHold_one : isHold "neutral" 1 = true := by
  rw [isHold_neutral]
  norm_num

lemma holdEv_isHoldEvent : isHoldEvent holdEv = true := by
  simp [isHoldEvent, holdEv, isHold_one]

lemma nonholdEv_isNonHoldEvent : isNonHoldEvent nonholdEv = true := by
  simp [isNonHoldEvent, nonholdEv, isHold_happy]

lemma step_holdEv (s : CalibState) : step s holdEv = processFrame true "neutral" 1 s := rfl

lemma step_nonholdEv (s : CalibState) : step s nonholdEv = processFrame true "happy" 1 s := rfl

/-- Running `N` hold frames from an active state that stays strictly below
the threshold advances progress by exactly `N`. -/
lemma runE_replicate_hold (N : ℕ) (s : CalibState) (ha : s.isActive = true)
    (hlt : s.progress + (N : ℚ) < targetPoints) :
    (runE s (List.replicate N holdEv)).1 = ⟨true, s.progress + (N : ℚ), s.guideVisible⟩ := by
  induction N generalizing s with
  | zero =>
    obtain ⟨sa, sp, sg⟩ := s
    dsimp only at ha
    subst ha
    simp [runE]
  | succ N ih =>
    have hN : (0 : ℚ) ≤ (N : ℚ) := by positivity
    have h1 : s.progress + 1 < targetPoints := by
      push_cast at hlt
      linarith
    rw [List.replicate_succ, runE_cons, step_holdEv,
      processFrame_hold "neutral" 1 s ha isHold_one h1]
    have h2 := ih ⟨true, s.progress + 1, s.guideVisible⟩ rfl
      (by dsimp only; push_cast at hlt ⊢; linarith)
    rw [h2]
    dsimp only
    simp only [CalibState.mk.injEq, true_and, and_true]
    push_cast
    ring

/-- The trace refuting the `progress ≤ targetPoints` bound: start, 149
holds (progress 149), one non-hold (148.5), one hold (149.5), one hold
(150.5, which triggers completion). -/
def c1trace : List Event :=
  Event.start false true :: (List.replicate 149 holdEv ++ [nonholdEv, holdEv, holdEv])

lemma start_step_init : (step init (Event.start false true)).1 = ⟨true, 0, true⟩ := rfl

lemma c1trace_eval : (runE init c1trace).1 = ⟨false, 301/2, false⟩ := by
  have h1 : (runE (⟨true, 0, true⟩ : CalibState) (List.replicate 149 holdEv)).1
      = ⟨true, 149, true⟩ := by
    have h := runE_replicate_hold 149 ⟨true, 0, true⟩ rfl
      (by dsimp only; norm_num [targetPoints])
    rw [h]
    norm_num
  have h2 : (step (⟨true, 149, true⟩ : CalibState) nonholdEv).1 = ⟨true, 297/2, true⟩ := by
    rw [step_nonholdEv, processFrame_nonhold "happy" 1 _ rfl (isHold_happy 1) (by norm_num)]
    norm_num
  have h3 : (step (⟨true, 297/2, true⟩ : CalibState) holdEv).1 = ⟨true, 299/2, true⟩ := by
    rw [step_holdEv, processFrame_hold "neutral" 1 _ rfl isHold_one
      (by dsimp only; norm_num [targetPoints])]
    norm_num
  have h4 : (step (⟨true, 299/2, true⟩ : CalibState) holdEv).1 = ⟨false, 301/2, false⟩ := by
    rw [step_holdEv, processFrame_hold_complete "neutral" 1 _ rfl isHold_one
      (by dsimp only; norm_num [targetPoints])]
    norm_num
  rw [c1trace, runE_cons, start_step_init, runE_state_append, h1, runE_cons, h2,
    runE_cons, h3, runE_cons, h4]
  rfl

/-- The trace refuting the teardown-resets-progress invariant: start, one
hold frame, stop. -/
def c2trace : List Event := [Event.start false true, holdEv, Event.stop]

lemma c2trace_eval : (runE init c2trace).1 = ⟨false, 1, false⟩ := by
  have h1 : (step (⟨true, 0, true⟩ : CalibState) holdEv).1 = ⟨true, 1, true⟩ := by
    rw [step_holdEv, processFrame_hold "neutral" 1 _ rfl isHold_one
      (by dsimp only; norm_num [targetPoints])]
    norm_num
  rw [c2trace, runE_cons, start_step_init, runE_cons, h1]
  rfl

/-! ## Claims -/

/-- C1, as stated, is false: the trace `c1trace` reaches a state whose
progress is `150.5 > targetPoints`, because a hold frame increments an
uncapped `progress` that decay can leave at the fractional value `149.5`. -/
theorem C1_counterexample :
    Reachable (runE init c1trace).1 ∧
      ¬ (runE init c1trace).1.progress ≤ targetPoints := by
  refine ⟨reachable_runE init c1trace Reachable.init, ?_⟩
  rw [c1trace_eval]
  norm_num [targetPoints]

/-- C1 (amended): in every reachable state of the tracker,
`0 ≤ progress ≤ targetPoints + 0.5`; a hold frame can push progress half a
point past `targetProgress` before completion deactivates the session. -/
theorem C1_progress_bounds (s : CalibState) (h : Reachable s) :
    0 ≤ s.progress ∧ s.progress ≤ targetPoints + 1/2 := by
  obtain ⟨⟨n, hn, hn301, -⟩, -⟩ := reachable_goodState h
  constructor
  · rw [hn]
    positivity
  · rw [hn, targetPoints]
    have h301 : (n : ℚ) ≤ 301 := by exact_mod_cast hn301
    linarith

/-- Witness for C1 (amended) at the initial state. -/
theorem C1_progress_bounds_witness :
    0 ≤ init.progress ∧ init.progress ≤ targetPoints + 1/2 :=
  C1_progress_bounds init Reachable.init

/-- C2, as stated, is false: after `start`, one hold frame and `stop`, the
session is inactive but `progress` is `1`, not `0` — neither `stop` nor
`complete` resets `progress`; only the next `start` does. -/
theorem C2_counterexample :
    (runE init c2trace).1.isActive = false ∧ (runE init c2trace).1.progress ≠ 0 := by
  rw [c2trace_eval]
  norm_num

/-- C2 (amended): `stop` and `complete` clear `active` but retain the
current `progress` value; `progress` is reset to `0` only by the next
successful `start` (inactive state, subject selected). -/
theorem C2_teardown_behavior :
    (∀ s : CalibState, ( stop s).1.isActive = false ∧ (stop s).1.progress = s.progress) ∧
    (∀ s : CalibState, (complete s).1.isActive = false ∧
      (complete s).1.progress = s.progress) ∧
    (∀ (p : ℚ) (g img : Bool),
      (startFn false img ⟨false, p, g⟩).1.isActive = true ∧
      (startFn false img ⟨false, p, g⟩).1.progress = 0) := by
  refine ⟨fun s => ⟨rfl, rfl⟩, fun s => ⟨rfl, rfl⟩, fun p g img => ⟨rfl, rfl⟩⟩

/-- C3, as stated, is false: `complete()` called while inactive leaves the
tracker state unchanged but is not observably silent — it still emits the
HITL confirm dialog and the backend dispatch. -/
theorem C3_counterexample : (complete init).1 = init ∧ (complete init).2 ≠ [] := by
  exact ⟨rfl, by simp [complete]⟩

/-- C3 (amended): `start()` while active, `stop()` while inactive, and any
sequence of `processFrame` calls while inactive are strict no-ops (state
unchanged, nothing emitted — in particular progress stays where it is and
no phase/asset change is emitted); `complete()` while inactive leaves the
tracker state unchanged but still emits the completion dialog and backend
dispatch. -/
theorem C3_redundant_transitions :
    (∀ (standby img : Bool) (s : CalibState), s.isActive = true →
      startFn standby img s = (s, [])) ∧
    (∀ s : CalibState, Reachable s → s.isActive = false → stop s = (s, [])) ∧
    (∀ s : CalibState, Reachable s → s.isActive = false →
      (complete s).1 = s ∧ (complete s).2 = [Effect.completeDialog]) ∧
    (∀ (s : CalibState) (l : List Event), s.isActive = false →
      l.all isFrameEvent = true → runE s l = (s, [])) := by
  refine ⟨?_, ?_, ?_, ?_⟩
  · intro standby img s h
    simp [startFn, h]
  · intro s hr h
    obtain ⟨-, hg⟩ := reachable_goodState hr
    obtain ⟨sa, sp, sg⟩ := s
    dsimp only at h
    subst h
    have hsg : sg = false := hg rfl
    subst hsg
    rfl
  · intro s hr h
    obtain ⟨-, hg⟩ := reachable_goodState hr
    obtain ⟨sa, sp, sg⟩ := s
    dsimp only at h
    subst h
    have hsg : sg = false := hg rfl
    subst hsg
    exact ⟨rfl, rfl⟩
  · intro s l h hl
    exact runE_frames_inactive s l h hl

/-- Witness for C3 (amended): `stop` on the initial (inactive) state. -/
theorem C3_redundant_transitions_witness : stop init = (init, []) :=
  C3_redundant_transitions.2.1 init Reachable.init rfl

/-- C4: while active (and with the image element present), a frame is a
hold iff its label lowercases to "neutral" and its confidence exceeds 0.5;
a hold adds exactly 1 to progress, a non-hold subtracts exactly 0.5
floored at 0. -/
theorem C4_frame_classification (s : CalibState) (em : String) (c : ℚ)
    (hr : Reachable s) (ha : s.isActive = true) :
    (isHold em c = true ↔ (strLower em = "neutral" ∧ (1 : ℚ)/2 < c)) ∧
    (isHold em c = true →
      (processFrame true em c s).1.progress = s.progress + 1) ∧
    (isHold em c = false →
      (processFrame true em c s).1.progress = max 0 (s.progress - 1/2)) := by
  obtain ⟨⟨n, hn, -, -⟩, -⟩ := reachable_goodState hr
  refine ⟨isHold_iff em c, fun hh => ?_, fun hh => ?_⟩
  · by_cases hge : targetPoints ≤ s.progress + 1
    · rw [processFrame_hold_complete em c s ha hh hge]
    · rw [processFrame_hold em c s ha hh (not_le.mp hge)]
  · by_cases hp : 0 < s.progress
    · rw [processFrame_nonhold em c s ha hh hp]
      dsimp only
      rw [max_eq_right]
      have hn1 : (1 : ℕ) ≤ n := by
        by_contra hc
        push_neg at hc
        interval_cases n
        rw [hn] at hp
        norm_num at hp
      have h1 : (1 : ℚ) ≤ (n : ℚ) := by exact_mod_cast hn1
      rw [hn]
      linarith
    · rw [processFrame_nonhold_zero em c s ha hh hp]
      dsimp only
      push_neg at hp
      have h0 : 0 ≤ s.progress := by
        rw [hn]
        positivity
      have hz : s.progress = 0 := le_antisymm hp h0
      rw [hz]
      norm_num

/-- Witness for C4: a hold frame right after `start` takes progress from 0
to 1. -/
theorem C4_witness :
    (processFrame true "Neutral" (9/10) (step init (Event.start false true)).1).1.progress
      = (step init (Event.start false true)).1.progress + 1 :=
  (C4_frame_classification ((step init (Event.start false true)).1) "Neutral" (9/10)
      (Reachable.step (Event.start false true) Reachable.init) rfl).2.1
    ((isHold_iff "Neutral" (9/10)).mpr ⟨by decide, by norm_num⟩)

/-- C5: from any active state, `N` hold frames followed by `N` non-hold
frames leave progress at or above its starting value (gain 1 per hold
versus decay 0.5 per non-hold). -/
theorem C5_net_drift (s : CalibState) (l₁ l₂ : List Event)
    (_ha : s.isActive = true) (h1 : l₁.all isHoldEvent = true)
    (h2 : l₂.all isNonHoldEvent = true) (hlen : l₁.length = l₂.length) :
    s.progress ≤ (runE s (l₁ ++ l₂)).1.progress := by
  rw [runE_state_append]
  by_cases hact : (runE s l₁).1.isActive = true
  · obtain ⟨-, hp⟩ := runE_holds_active l₁ s h1 hact
    have h3 := runE_nonholds_ge l₂ (runE s l₁).1 h2
    have hcast : (l₂.length : ℚ) = (l₁.length : ℚ) := by exact_mod_cast hlen.symm
    have hN : (0 : ℚ) ≤ (l₁.length : ℚ) := by positivity
    rw [hp, hcast] at h3
    linarith
  · rw [Bool.not_eq_true] at hact
    rw [runE_frames_inactive (runE s l₁).1 l₂ hact
      (all_imp (fun e => isFrame_of_isNonHoldEvent) l₂ h2)]
    exact runE_holds_ge l₁ s h1

/-- Witness for C5: one hold then one non-hold from a fresh session. -/
theorem C5_net_drift_witness :
    (⟨true, 0, true⟩ : CalibState).progress
      ≤ (runE ⟨true, 0, true⟩ ([holdEv] ++ [nonholdEv])).1.progress :=
  C5_net_drift ⟨true, 0, true⟩ [holdEv] [nonholdEv] rfl
    (by simp [holdEv_isHoldEvent]) (by simp [nonholdEv_isNonHoldEvent]) rfl

/-- C6: the completion dialog fires only from an active state whose new
progress has reached the target (and firing deactivates the session); it
does fire whenever an active hold frame reaches the target; while active,
reachable progress is strictly below the target (so the firing frame is
the first moment it is reached); and no run of frames from an inactive
state changes state or fires anything — a new `start` is required. -/
theorem C6_complete_once :
    (∀ (s : CalibState) (e : Event), Effect.completeDialog ∈ (step s e).2 →
      s.isActive = true ∧ (step s e).1.isActive = false ∧
        targetPoints ≤ (step s e).1.progress) ∧
    (∀ (s : CalibState) (em : String) (c : ℚ), s.isActive = true →
      isHold em c = true → targetPoints ≤ s.progress + 1 →
      Effect.completeDialog ∈ (step s (.frame true em c)).2) ∧
    (∀ s : CalibState, Reachable s → s.isActive = true →
      s.progress < targetPoints) ∧
    (∀ (s : CalibState) (l : List Event), s.isActive = false →
      l.all isFrameEvent = true → runE s l = (s, [])) := by
  refine ⟨?_, ?_, ?_, ?_⟩
  · intro s e hmem
    cases e with
    | start standby img =>
      exfalso
      simp only [step, startFn] at hmem
      split_ifs at hmem <;> simp at hmem
    | stop =>
      exfalso
      simp [step, stop] at hmem
    | frame img em c =>
      by_cases ha : s.isActive = true
      · cases img with
        | false =>
          exfalso
          rw [step, processFrame_noImage] at hmem
          simp at hmem
        | true =>
          by_cases hh : isHold em c = true
          · by_cases hge : targetPoints ≤ s.progress + 1
            · rw [step, processFrame_hold_complete em c s ha hh hge]
              exact ⟨ha, rfl, by dsimp only; linarith⟩
            · exfalso
              rw [step, processFrame_hold em c s ha hh (not_le.mp hge)] at hmem
              simp at hmem
          · rw [Bool.not_eq_true] at hh
            exfalso
            by_cases hp : 0 < s.progress
            · rw [step, processFrame_nonhold em c s ha hh hp] at hmem
              simp at hmem
            · rw [step, processFrame_nonhold_zero em c s ha hh hp] at hmem
              simp at hmem
      · rw [Bool.not_eq_true] at ha
        exfalso
        rw [step, processFrame_inactive img em c s ha] at hmem
        simp at hmem
  · intro s em c ha hh hge
    rw [step, processFrame_hold_complete em c s ha hh hge]
    simp
  · intro s hr ha
    obtain ⟨⟨n, hn, -, hact⟩, -⟩ := reachable_goodState hr
    have h300 := hact ha
    rw [hn, targetPoints]
    have h300q : (n : ℚ) < 300 := by exact_mod_cast h300
    linarith
  · intro s l h hl
    exact runE_frames_inactive s l h hl

/-- Witness for C6: a hold frame at progress `149.5` fires the completion
dialog. -/
theorem C6_complete_once_witness :
    Effect.completeDialog ∈
      (step ⟨true, 299/2, true⟩ (Event.frame true "neutral" 1)).2 :=
  C6_complete_once.2.1 ⟨true, 299/2, true⟩ "neutral" 1 rfl isHold_one
    (by dsimp only; norm_num [targetPoints])

/-- C7: `selectPhase` maps `[0,33)` to Focus, `[33,66)` to Neutral and
`[66,100]` to Relax, with the five boundary samples of the spec. -/
theorem C7_selectPhase :
    (∀ p : ℚ, 0 ≤ p → p < 33 → selectPhase p = Phase.focus) ∧
    (∀ p : ℚ, 33 ≤ p → p < 66 → selectPhase p = Phase.neutral) ∧
    (∀ p : ℚ, 66 ≤ p → p ≤ 100 → selectPhase p = Phase.relax) ∧
    selectPhase (32.9 : ℚ) = Phase.focus ∧ selectPhase 33 = Phase.neutral ∧
    selectPhase (65.9 : ℚ) = Phase.neutral ∧ selectPhase 66 = Phase.relax ∧
    selectPhase 100 = Phase.relax := by
  refine ⟨?_, ?_, ?_, by norm_num [selectPhase], by norm_num [selectPhase],
    by norm_num [selectPhase], by norm_num [selectPhase], by norm_num [selectPhase]⟩
  · intro p h0 h33
    rw [selectPhase, if_neg (fun hc => by linarith [hc.1]), if_neg (by intro hc; linarith)]
  · intro p h33 h66
    rw [selectPhase, if_pos ⟨h33, h66⟩]
  · intro p h66 h100
    rw [selectPhase, if_neg (fun hc => by linarith [hc.2]), if_pos h66]

/-- Witness for C7 at `percent = 10`. -/
theorem C7_selectPhase_witness : selectPhase 10 = Phase.focus :=
  C7_selectPhase.1 10 (by norm_num) (by norm_num)

/-- C8: the fusion verdict is Waiting iff neither modality is live,
FaceOnly iff only the face is live, SignalOnly iff only the signal is
live; when both are live it is BothAgree iff the (spec-modelled) backend
match flag holds, which in turn holds iff the two labels match
case-insensitively. -/
theorem C8_fusion_verdict (d : LiveData) :
    (fusionVerdict d = Verdict.waiting ↔
      (eegActive d = false ∧ faceActive d = false)) ∧
    (fusionVerdict d = Verdict.faceOnly ↔
      (faceActive d = true ∧ eegActive d = false)) ∧
    (fusionVerdict d = Verdict.signalOnly ↔
      (eegActive d = true ∧ faceActive d = false)) ∧
    (eegActive d = true → faceActive d = true →
      ((fusionVerdict d = Verdict.bothAgree ↔ fusionMatch d = true) ∧
       (fusionVerdict d = Verdict.bothDissent ↔ fusionMatch d = false))) ∧
    (∀ lbl : String, d.faceEmotion = some lbl →
      (fusionMatch d = true ↔ strLower d.eegEmotion = strLower lbl)) := by
  refine ⟨?_, ?_, ?_, ?_, ?_⟩
  · cases he : eegActive d <;> cases hf : faceActive d <;>
      cases hm : fusionMatch d <;> simp [fusionVerdict, he, hf, hm]
  · cases he : eegActive d <;> cases hf : faceActive d <;>
      cases hm : fusionMatch d <;> simp [fusionVerdict, he, hf, hm]
  · cases he : eegActive d <;> cases hf : faceActive d <;>
      cases hm : fusionMatch d <;> simp [fusionVerdict, he, hf, hm]
  · intro h1 h2
    cases hm : fusionMatch d <;> simp [fusionVerdict, h1, h2, hm]
  · intro lbl hl
    rw [fusionMatch, hl]
    simp [beq_iff_eq]

/-- Witness for C8: both modalities live with matching labels up to case. -/
theorem C8_fusion_verdict_witness :
    fusionVerdict ⟨some 3, "Happy", some "happy"⟩ = Verdict.bothAgree ↔
      fusionMatch ⟨some 3, "Happy", some "happy"⟩ = true :=
  ((C8_fusion_verdict ⟨some 3, "Happy", some "happy"⟩).2.2.2.1
    (by norm_num [eegActive]) rfl).1

/-- C9: `proposeAsset` keeps the current asset when the pool is empty or
the current asset already belongs to the pool, and otherwise returns a
member of the pool. -/
theorem C9_proposeAsset (pool : List String) (current : String) (k : ℕ) :
    (pool = [] → proposeAsset pool current k = current) ∧
    (current ∈ pool → proposeAsset pool current k = current) ∧
    (pool ≠ [] → current ∉ pool → proposeAsset pool current k ∈ pool) := by
  refine ⟨fun h => ?_, fun h => ?_, fun h1 h2 => ?_⟩
  · subst h
    rfl
  · rw [proposeAsset]
    by_cases hl : 0 < pool.length
    · rw [if_pos hl, if_pos (by simpa [List.contains, List.elem_iff] using h)]
    · rw [if_neg hl]
  · have hl : 0 < pool.length := List.length_pos.mpr h1
    rw [proposeAsset, if_pos hl,
      if_neg (by simpa [List.contains, List.elem_iff] using h2)]
    have hk : k % pool.length < pool.length := Nat.mod_lt _ hl
    rw [List.getD_eq_getElem pool current hk]
    exact List.getElem_mem hk

/-- Witness for C9: a two-element pool and a current asset outside it. -/
theorem C9_proposeAsset_witness : proposeAsset ["a", "b"] "c" 5 ∈ ["a", "b"] :=
  (C9_proposeAsset ["a", "b"] "c" 5).2.2 (by simp) (by simp)

/-- C10: with the calibration image element absent, `processFrame` returns
immediately: the state (including progress) is unchanged and nothing is
emitted, even while a session is active. -/
theorem C10_missing_image (s : CalibState) (em : String) (c : ℚ) :
    processFrame false em c s = (s, []) :=
  processFrame_noImage em c s

end NeuroMetric
